import Mathlib

/-!
# Verification of the `WebsiteCrawler` engine
  (src/backend/src/services/crawlerService.js)

A shallow embedding of the crawling engine: URL normalization, the
robots-policy gate, the frontier loop with its visited set and results map,
per-page crawling with its failure semantics, page-data extraction, and the
report aggregator.  Strings are JavaScript strings; the WHATWG `URL`
constructor is modelled for `scheme://host/path` shapes, which is the
fragment the crawler's normalizer exercises.  JavaScript `Map`s are
association lists with insert-or-update semantics, `Set`s are
duplicate-free lists, and `undefined`/`null` fields are `Option`s.
-/

namespace Crawler

/-! ## URL model (WHATWG `new URL` on `scheme://host/path` inputs)

`new URL(u).href` for an absolute http(s) URL with a host and a path:
parsing splits the part after `scheme://` at the first `/` into host and
path; an empty path serializes as `/`.  A host that is empty or contains
`:` (which the real parser would treat as a port delimiter, failing on
non-numeric ports) is rejected.  We work on `List Char` and wrap into
`String` at the boundary. -/

structure ParsedUrl where
  secure : Bool
  host : List Char
  path : List Char
deriving DecidableEq, Repr

def schemeChars (secure : Bool) : List Char :=
  if secure then "https://".data else "http://".data

/-- Split the authority-and-path remainder at the first `/`. -/
def splitHostPath : List Char → List Char × List Char
  | [] => ([], [])
  | c :: rest =>
    if c = '/' then ([], c :: rest)
    else
      let hp := splitHostPath rest
      (c :: hp.1, hp.2)

def parseAfterScheme (secure : Bool) (rest : List Char) : Option ParsedUrl :=
  let hp := splitHostPath rest
  if hp.1 ≠ [] ∧ ':' ∉ hp.1 then
    some ⟨secure, hp.1, if hp.2 = [] then ['/'] else hp.2⟩
  else none

/-- `new URL(u)` on a `scheme://host/path` string. -/
def parseUrl (cs : List Char) : Option ParsedUrl :=
  if "https://".data.isPrefixOf cs then parseAfterScheme true (cs.drop 8)
  else if "http://".data.isPrefixOf cs then parseAfterScheme false (cs.drop 7)
  else none

/-- `urlObj.href`. -/
def href (p : ParsedUrl) : List Char :=
  schemeChars p.secure ++ p.host ++ p.path

/-- `.replace(/\/$/, '')`: drop one trailing slash. -/
def stripTrailingSlash (cs : List Char) : List Char :=
  match cs.getLast? with
  | some '/' => cs.dropLast
  | _ => cs

/-- `WebsiteCrawler.normalizeUrl`, on character lists: default a missing
scheme to `https://`, parse, take the href, strip one trailing slash;
`none` models the thrown `Invalid URL` error. -/
def normalizeUrlL (cs : List Char) : Option (List Char) :=
  let cs' :=
    if "http://".data.isPrefixOf cs ∨ "https://".data.isPrefixOf cs then cs
    else "https://".data ++ cs
  (parseUrl cs').map (fun p => stripTrailingSlash (href p))

/-- `WebsiteCrawler.normalizeUrl` on strings. -/
def normalizeUrl (s : String) : Option String :=
  (normalizeUrlL s.data).map String.mk

/-! ## Crawl configuration, world, and state

The crawl loop's interactions with the outside (robots.txt fetch, browser
launch, `browser.newPage()`, navigation plus extraction of one page) are a
`World`: a per-URL oracle fixing each interaction's outcome.  Everything
else — the frontier queue, visited set, results map, report — is computed
exactly as the source does.  `dequeued` and `attempts` are ghost traces
recording, respectively, every entry popped from the frontier and every
URL `crawlPage` navigated to. -/

structure CrawlConfig where
  maxDepth : Nat
  maxPages : Nat
  respectRobotsTxt : Bool
  screenshotEnabled : Bool
  userAgent : String
deriving Repr

/-- The parsed robots policy; `isAllowed` is the truthiness of
`robotsParser.isAllowed(url, userAgent)`. -/
structure RobotsPolicy where
  isAllowed : String → String → Bool

structure Links where
  internal : List String
  external : List String
deriving DecidableEq, Repr

structure Image where
  url : String
  alt : String
deriving DecidableEq, Repr

structure PageResources where
  css : List String
  js : List String
  images : List Image
deriving DecidableEq, Repr

/-- Payload of a successful `extractPageData` call, as consumed by the crawl
loop and the report (title, status, load time, links, resources). -/
structure PageData where
  title : String
  statusCode : Nat
  loadTime : Nat
  links : Links
  resources : PageResources
deriving DecidableEq, Repr

/-- Outcome of processing one URL inside `crawlPage`'s `try` block:
`page.goto` rejects (timeout / network error); or navigation succeeds but
`extractPageData` throws; or everything succeeds. -/
inductive NavOutcome where
  | navError (msg : String)
  | extractError (msg : String)
  | ok (d : PageData)
deriving DecidableEq, Repr

structure World where
  robots : Option RobotsPolicy
  launchFails : Bool
  newPageFails : String → Bool
  nav : String → NavOutcome

structure QueueEntry where
  url : String
  depth : Nat
  parentUrl : Option String
deriving DecidableEq, Repr

/-- A stored page result; absent (`undefined`) fields are `none`.  The
five-field error object of `crawlPage`'s catch block has every other
field `none`. -/
structure PageResult where
  url : String
  title : Option String
  depth : Nat
  parentUrl : Option String
  statusCode : Option Nat
  loadTime : Option Nat
  crawledAt : Nat
  links : Option Links
  resources : Option PageResources
  error : Option String
deriving DecidableEq, Repr

structure CrawlState where
  visitedUrls : List String
  crawlQueue : List QueueEntry
  results : List (String × PageResult)
  dequeued : List QueueEntry
  attempts : List String
  clock : Nat
deriving Repr

/-- `Set.add`: duplicate-free insertion at the back. -/
def addVisited (v : List String) (u : String) : List String :=
  if u ∈ v then v else v ++ [u]

/-- JavaScript `Map.set` / object property assignment: update in place if
the key exists, else append. -/
def mapSet {α : Type} : List (String × α) → String → α → List (String × α)
  | [], k, v => [(k, v)]
  | (k', v') :: rest, k, v =>
    if k' = k then (k, v) :: rest else (k', v') :: mapSet rest k v

/-- `Map.get` / property lookup. -/
def mapGet {α : Type} : List (String × α) → String → Option α
  | [], _ => none
  | (k', v') :: rest, k => if k' = k then some v' else mapGet rest k

/-- `WebsiteCrawler.isAllowedByRobots`. -/
def isAllowedByRobots (cfg : CrawlConfig) (robots : Option RobotsPolicy)
    (url : String) : Bool :=
  if !cfg.respectRobotsTxt then true
  else match robots with
    | none => true
    | some p => p.isAllowed url cfg.userAgent

def errorResult (e : QueueEntry) (msg : String) (t : Nat) : PageResult :=
  { url := e.url, title := none, depth := e.depth, parentUrl := e.parentUrl,
    statusCode := none, loadTime := none, crawledAt := t,
    links := none, resources := none, error := some msg }

def okResult (e : QueueEntry) (d : PageData) (t : Nat) : PageResult :=
  { url := e.url, title := some d.title, depth := e.depth,
    parentUrl := e.parentUrl, statusCode := some d.statusCode,
    loadTime := some d.loadTime, crawledAt := t,
    links := some d.links, resources := some d.resources, error := none }

/-- `WebsiteCrawler.crawlPage` (after `newPage` succeeded): navigate; on
success mark visited, store the extracted result and enqueue fresh
internal links at `depth+1`; on failure store the five-field error
object.  A navigation error does not touch the visited set. -/
def crawlPage (w : World) (cfg : CrawlConfig) (e : QueueEntry)
    (st : CrawlState) : CrawlState :=
  let st := { st with attempts := st.attempts ++ [e.url], clock := st.clock + 1 }
  match w.nav e.url with
  | .navError msg =>
    { st with results := mapSet st.results e.url (errorResult e msg st.clock) }
  | .extractError msg =>
    { st with visitedUrls := addVisited st.visitedUrls e.url,
              results := mapSet st.results e.url (errorResult e msg st.clock) }
  | .ok d =>
    let v := addVisited st.visitedUrls e.url
    let newEntries :=
      if e.depth < cfg.maxDepth then
        (d.links.internal.filter
          (fun l => !v.contains l && decide (v.length < cfg.maxPages))).map
          (fun l => QueueEntry.mk l (e.depth + 1) (some e.url))
      else []
    { st with visitedUrls := v,
              results := mapSet st.results e.url (okResult e d st.clock),
              crawlQueue := st.crawlQueue ++ newEntries }

/-- The `while` loop of `WebsiteCrawler.crawl`, fuelled.  Returns the state
together with `some msg` when an error escaped the loop
(`browser.newPage()` rejecting is the loop body's only uncaught throw). -/
def crawlLoopE (w : World) (cfg : CrawlConfig) :
    Nat → CrawlState → CrawlState × Option String
  | 0, st => (st, none)
  | fuel + 1, st =>
    match st.crawlQueue with
    | [] => (st, none)
    | e :: rest =>
      if st.visitedUrls.length < cfg.maxPages then
        let st' := { st with crawlQueue := rest, dequeued := st.dequeued ++ [e] }
        if e.url ∈ st'.visitedUrls then crawlLoopE w cfg fuel st'
        else if cfg.maxDepth < e.depth then crawlLoopE w cfg fuel st'
        else if isAllowedByRobots cfg w.robots e.url then
          if w.newPageFails e.url then (st', some "newPage failed")
          else crawlLoopE w cfg fuel (crawlPage w cfg e st')
        else crawlLoopE w cfg fuel st'
      else (st, none)

def initState (seed : String) : CrawlState :=
  { visitedUrls := [], crawlQueue := [⟨seed, 0, none⟩], results := [],
    dequeued := [], attempts := [], clock := 0 }

/-! ## Report aggregation (`WebsiteCrawler.generateReport`) -/

structure ResourceCounts where
  cssCount : Nat
  jsCount : Nat
  imageCount : Nat
deriving DecidableEq, Repr

structure SitemapEntry where
  url : String
  title : Option String
  depth : Nat
  links : List String
  resources : Option ResourceCounts
  loadTime : Option Nat
  statusCode : Option Nat
  error : Option String
deriving DecidableEq, Repr

structure CrawlStats where
  totalLinks : Nat
  totalImages : Nat
  avgLoadTime : ℚ
deriving DecidableEq, Repr

structure ConfigSnapshot where
  maxDepth : Nat
  maxPages : Nat
  respectRobotsTxt : Bool
deriving DecidableEq, Repr

structure CrawlReport where
  website : String
  totalPages : Nat
  config : ConfigSnapshot
  sitemap : List (String × SitemapEntry)
  statistics : CrawlStats
deriving DecidableEq, Repr

/-- JavaScript `String.prototype.replace` with a plain-string pattern and
empty replacement: remove the first occurrence of `pat`, if any. -/
def replaceFirst : List Char → List Char → List Char
  | [], _ => []
  | c :: rest, pat =>
    if pat.isPrefixOf (c :: rest) then (c :: rest).drop pat.length
    else c :: replaceFirst rest pat

/-- `url.replace(this.startUrl, '') || '/'`. -/
def sitemapKey (startUrl url : String) : String :=
  let p := String.mk (replaceFirst url.data startUrl.data)
  if p = "" then "/" else p

def sitemapEntryOf (r : PageResult) : SitemapEntry :=
  { url := r.url, title := r.title, depth := r.depth,
    links := match r.links with | some l => l.internal | none => [],
    resources := r.resources.map
      (fun rs => ⟨rs.css.length, rs.js.length, rs.images.length⟩),
    loadTime := r.loadTime, statusCode := r.statusCode,
    error := match r.error with
      | some msg => if msg = "" then none else some msg
      | none => none }

def buildSitemap (startUrl : String) (results : List (String × PageResult)) :
    List (String × SitemapEntry) :=
  results.foldl
    (fun m p => mapSet m (sitemapKey startUrl p.1) (sitemapEntryOf p.2)) []

def totalLinksOf (rs : List PageResult) : Nat :=
  (rs.map (fun r =>
    (match r.links with | some l => l.internal.length | none => 0) +
    (match r.links with | some l => l.external.length | none => 0))).sum

def totalImagesOf (rs : List PageResult) : Nat :=
  (rs.map (fun r =>
    match r.resources with | some res => res.images.length | none => 0)).sum

/-- `.filter(page => page.loadTime)`: truthiness keeps only present,
nonzero load times. -/
def loadTimeSamples (rs : List PageResult) : List Nat :=
  rs.filterMap (fun r =>
    match r.loadTime with
    | some t => if t = 0 then none else some t
    | none => none)

/-- `.reduce((sum, page, i, arr) => sum + page.loadTime / arr.length, 0)`
over the filtered array, in exact rational arithmetic. -/
def avgLoadTimeOf (rs : List PageResult) : ℚ :=
  let xs : List Nat := loadTimeSamples rs
  xs.foldl (fun acc (t : Nat) => acc + (t : ℚ) / (xs.length : ℚ)) 0

def generateReport (startUrl : String) (cfg : CrawlConfig)
    (st : CrawlState) : CrawlReport :=
  { website := startUrl,
    totalPages := st.visitedUrls.length,
    config := ⟨cfg.maxDepth, cfg.maxPages, cfg.respectRobotsTxt⟩,
    sitemap := buildSitemap startUrl st.results,
    statistics :=
      ⟨totalLinksOf (st.results.map Prod.snd),
       totalImagesOf (st.results.map Prod.snd),
       avgLoadTimeOf (st.results.map Prod.snd)⟩ }

/-! ## Top level (`crawl` / `exports.crawlWebsite`)

`loadRobotsTxt` catches all its errors, so the `try` block's failure
points are the browser launch and whatever escapes the loop; the `catch`
closes the browser (when it was assigned) before rethrowing. -/

inductive BrowserEvent where
  | launch
  | close
deriving DecidableEq, Repr

/-- `WebsiteCrawler.crawl`: the browser-event trace plus the outcome. -/
def crawl (w : World) (cfg : CrawlConfig) (startUrl : String) (fuel : Nat) :
    List BrowserEvent × Except String CrawlReport :=
  if w.launchFails then ([], .error "launch failed")
  else
    match crawlLoopE w cfg fuel (initState startUrl) with
    | (st, none) => ([.launch, .close], .ok (generateReport startUrl cfg st))
    | (_, some msg) => ([.launch, .close], .error msg)

/-- `exports.crawlWebsite`: the constructor normalizes the seed URL (an
invalid seed throws before any browser exists). -/
def crawlWebsite (w : World) (cfg : CrawlConfig) (url : String) (fuel : Nat) :
    List BrowserEvent × Except String CrawlReport :=
  match normalizeUrl url with
  | none => ([], .error ("Invalid URL: " ++ url))
  | some seed => crawl w cfg seed fuel

/-! ## Page-data extraction (`WebsiteCrawler.extractPageData`)

The extraction function over the raw page content handed back by the
browser.  Cheerio traversals are total; the failure points are per-item
URL resolution (`new URL(href, url)` throwing, caught per item), the
navigation response being `null` (so `response.headers()` throws — this
one is not caught inside `extractPageData`), and the screenshot call
(caught, degrading to `null`). -/

structure MetaElem where
  nameA : Option String
  propertyA : Option String
  contentA : Option String
deriving DecidableEq, Repr

structure RespInfo where
  status : Nat
  contentType : Option String
  server : Option String
  cacheControl : Option String
  xFrameOptions : Option String
  strictTransportSecurity : Option String
deriving DecidableEq, Repr

structure Headings where
  h1 : List String
  h2 : List String
  h3 : List String
  h4 : List String
  h5 : List String
  h6 : List String
deriving DecidableEq, Repr

/-- The DOM content of a live page plus its browser-side effects:
`resolve` is `href ↦ new URL(href, url).href` (`none` = throws), and
`screenshotFails` makes `page.screenshot` reject. -/
structure RawPage where
  pageTitle : String
  metaElems : List MetaElem
  anchorHrefs : List String
  stylesheetHrefs : List String
  scriptSrcs : List String
  imgElems : List Image
  headings : Headings
  resolve : String → Option String
  screenshotFails : Bool
  screenshotData : String

structure PageHeaders where
  contentType : Option String
  server : Option String
  cacheControl : Option String
  xFrameOptions : Option String
  strictTransportSecurity : Option String
deriving DecidableEq, Repr

structure ExtractedData where
  url : String
  title : String
  depth : Nat
  parentUrl : Option String
  statusCode : Nat
  loadTime : Nat
  meta : List (String × String)
  headings : Headings
  links : Links
  resources : PageResources
  headers : PageHeaders
  screenshot : Option String
deriving DecidableEq, Repr

/-- JavaScript `a || b` on possibly-absent strings. -/
def jsOr (a b : Option String) : Option String :=
  match a with
  | some s => if s = "" then b else some s
  | none => b

/-- `WebsiteCrawler.getDomain`: hostname, `null` on parse failure. -/
def getDomain (url : String) : Option String :=
  (parseUrl url.data).map (fun p => String.mk p.host)

/-- `WebsiteCrawler.isInternalUrl`: hostname equality against the seed
(`null === null` compares equal, as in the source). -/
def isInternalUrl (startUrl url : String) : Bool :=
  getDomain startUrl = getDomain url

def extractMeta (elems : List MetaElem) : List (String × String) :=
  elems.foldl
    (fun acc m =>
      match jsOr m.nameA m.propertyA, m.contentA with
      | some n, some c => if n ≠ "" ∧ c ≠ "" then mapSet acc n c else acc
      | _, _ => acc)
    []

def extractLinks (startUrl : String) (resolve : String → Option String)
    (hrefs : List String) : Links :=
  hrefs.foldl
    (fun acc href =>
      match resolve href with
      | none => acc
      | some abs =>
        let absoluteUrl := String.mk (stripTrailingSlash abs.data)
        if isInternalUrl startUrl absoluteUrl then
          if absoluteUrl ∈ acc.internal then acc
          else { acc with internal := acc.internal ++ [absoluteUrl] }
        else
          if absoluteUrl ∈ acc.external then acc
          else { acc with external := acc.external ++ [absoluteUrl] })
    ⟨[], []⟩

def extractUrlList (resolve : String → Option String)
    (attrs : List String) : List String :=
  attrs.foldl
    (fun acc a =>
      if a = "" then acc
      else match resolve a with
        | none => acc
        | some abs => acc ++ [abs])
    []

def extractImages (resolve : String → Option String)
    (imgs : List Image) : List Image :=
  imgs.foldl
    (fun acc i =>
      if i.url = "" then acc
      else match resolve i.url with
        | none => acc
        | some abs => acc ++ [⟨abs, i.alt⟩])
    []

/-- `WebsiteCrawler.extractPageData`.  `Except.error` models an exception
escaping to `crawlPage`'s catch block: the only uncaught throw is
`response.headers()` on a `null` navigation response. -/
def extractPageData (cfg : CrawlConfig) (startUrl : String) (p : RawPage)
    (url : String) (response : Option RespInfo) (loadTime : Nat)
    (depth : Nat) (parentUrl : Option String) : Except String ExtractedData :=
  let metaTags := extractMeta p.metaElems
  let links := extractLinks startUrl p.resolve p.anchorHrefs
  let cssFiles := extractUrlList p.resolve p.stylesheetHrefs
  let jsFiles := extractUrlList p.resolve p.scriptSrcs
  let images := extractImages p.resolve p.imgElems
  match response with
  | none => .error "Cannot read properties of null (reading 'headers')"
  | some resp =>
    let screenshot :=
      if cfg.screenshotEnabled then
        if p.screenshotFails then none
        else some ("data:image/jpeg;base64," ++
          String.mk (p.screenshotData.data.take 100) ++ "...")
      else none
    .ok
      { url := url, title := p.pageTitle, depth := depth,
        parentUrl := parentUrl, statusCode := resp.status,
        loadTime := loadTime, meta := metaTags, headings := p.headings,
        links := links,
        resources := ⟨cssFiles, jsFiles, images.take 50⟩,
        headers := ⟨resp.contentType, resp.server, resp.cacheControl,
          resp.xFrameOptions, resp.strictTransportSecurity⟩,
        screenshot := screenshot }

/-! ## Spec-side definitions (for comparison against the code)

These two follow the specification's words, not the source, and exist only
to be compared with the code-derived definitions above. -/

/-- Modelled from the spec: "average load time computed only over pages
that completed navigation (errored pages contribute no load-time sample)"
— the arithmetic mean of all recorded load times. -/
def specAvgLoadTime (rs : List PageResult) : ℚ :=
  let xs : List Nat := rs.filterMap (fun r => r.loadTime)
  ((xs.map (fun t : Nat => (t : ℚ))).sum) / (xs.length : ℚ)

/-- Modelled from the spec: "path-keyed sitemap (path = URL with the seed
origin stripped)", the seed page keyed by `/`. -/
def specSitemapKey (seed url : String) : Option String :=
  (parseUrl seed.data).map (fun p =>
    let stripped := replaceFirst url.data (schemeChars p.secure ++ p.host)
    if stripped = [] then "/" else String.mk stripped)

/-! ## Concrete worlds for counterexamples and witnesses -/

/-- A page that renders with the given load time and internal links. -/
def mkPage (lt : Nat) (ints : List String) : PageData :=
  ⟨"t", 200, lt, ⟨ints, []⟩, ⟨[], [], []⟩⟩

def defaultCfg : CrawlConfig :=
  ⟨5, 10, false, true, "HealthChecker-Bot/1.0 (https://healthchecker.app)"⟩

/-- Seed links to `/a` (navigation fails) and `/b`; `/b` links back to
`/a`. -/
def failWorld : World :=
  { robots := none, launchFails := false, newPageFails := fun _ => false,
    nav := fun u =>
      if u = "https://example.com" then
        .ok (mkPage 7 ["https://example.com/a", "https://example.com/b"])
      else if u = "https://example.com/b" then
        .ok (mkPage 5 ["https://example.com/a"])
      else .navError "net::ERR_CONNECTION_TIMED_OUT" }

def failState : CrawlState :=
  (crawlLoopE failWorld defaultCfg 20 (initState "https://example.com")).1

/-- `failWorld` after one loop iteration: the seed is crawled, `/a` and
`/b` sit on the frontier. -/
def c1State : CrawlState :=
  (crawlLoopE failWorld defaultCfg 1 (initState "https://example.com")).1

/-- A mid-crawl state whose frontier head sits beyond `maxDepth`. -/
def deepState : CrawlState :=
  { visitedUrls := ["https://example.com"],
    crawlQueue := [⟨"https://example.com/deep", 6, some "https://example.com"⟩],
    results := [], dequeued := [], attempts := [], clock := 1 }

/-- A robots policy disallowing `/secret` for every user agent. -/
def blockPolicy : RobotsPolicy :=
  ⟨fun u _ => !(u = "https://example.com/secret")⟩

def robotsCfg : CrawlConfig := ⟨5, 10, true, true, "HealthChecker-Bot/1.0"⟩

/-- Seed linking to the disallowed `/secret` and the allowed `/open`. -/
def robotsWorld : World :=
  { robots := some blockPolicy, launchFails := false,
    newPageFails := fun _ => false,
    nav := fun u =>
      if u = "https://example.com" then
        .ok (mkPage 2 ["https://example.com/secret", "https://example.com/open"])
      else .ok (mkPage 2 []) }

def budgetCfg : CrawlConfig := ⟨5, 2, false, true, "HealthChecker-Bot/1.0"⟩

/-- Seed links to `/a` and `/b`, whose navigations both fail. -/
def budgetWorld : World :=
  { robots := none, launchFails := false, newPageFails := fun _ => false,
    nav := fun u =>
      if u = "https://example.com" then
        .ok (mkPage 7 ["https://example.com/a", "https://example.com/b"])
      else .navError "net::ERR_NAME_NOT_RESOLVED" }

def overBudgetState : CrawlState :=
  (crawlLoopE budgetWorld budgetCfg 20 (initState "https://example.com")).1

/-- The seed renders instantaneously (0 ms); `/a` takes 10 ms. -/
def zeroLoadWorld : World :=
  { robots := none, launchFails := false, newPageFails := fun _ => false,
    nav := fun u =>
      if u = "https://example.com" then .ok (mkPage 0 ["https://example.com/a"])
      else .ok (mkPage 10 []) }

def zeroLoadState : CrawlState :=
  (crawlLoopE zeroLoadWorld defaultCfg 20 (initState "https://example.com")).1

/-- A seed URL that carries a path, linking to a page outside that path. -/
def pathSeedWorld : World :=
  { robots := none, launchFails := false, newPageFails := fun _ => false,
    nav := fun u =>
      if u = "https://example.com/blog" then
        .ok (mkPage 3 ["https://example.com/about"])
      else .ok (mkPage 4 []) }

def pathSeedState : CrawlState :=
  (crawlLoopE pathSeedWorld defaultCfg 20 (initState "https://example.com/blog")).1

def rawX : RawPage :=
  { pageTitle := "Title",
    metaElems := [⟨some "description", none, some "d"⟩],
    anchorHrefs := ["/a"],
    stylesheetHrefs := ["/s.css"],
    scriptSrcs := ["/s.js"],
    imgElems := [⟨"/i.png", "logo"⟩],
    headings := ⟨["H"], [], [], [], [], []⟩,
    resolve := fun h =>
      if h.data.take 1 = ['/'] then some ("https://example.com" ++ h) else some h,
    screenshotFails := false,
    screenshotData := "IMGDATA" }

def respX : RespInfo := ⟨200, some "text/html", none, none, none, none⟩

/-! ## Verification-side state abstractions -/

/-- Depth of the most recently dequeued frontier entry (0 before any). -/
def lastDepth (st : CrawlState) : Nat :=
  ((st.dequeued.map QueueEntry.depth).getLast?).getD 0

/-- BFS loop invariant: the dequeued-then-frontier depth sequence is
non-decreasing, and no frontier entry is more than one level beyond the
depth currently being drained. -/
def BfsInv (st : CrawlState) : Prop :=
  List.Chain' (· ≤ ·)
    ((st.dequeued.map QueueEntry.depth) ++
      (st.crawlQueue.map QueueEntry.depth)) ∧
  ∀ q ∈ st.crawlQueue, q.depth ≤ lastDepth st + 1

/-! ## Helper lemmas: sets, maps, `crawlPage`, and the loop -/

theorem mem_addVisited {v : List String} {u x : String} :
    x ∈ addVisited v u ↔ x ∈ v ∨ x = u := by
  unfold addVisited
  split
  · next h =>
    exact ⟨fun hx => Or.inl hx, fun hx => hx.elim id (fun he => he ▸ h)⟩
  · simp [List.mem_append]

theorem subset_addVisited {v : List String} {u x : String} (h : x ∈ v) :
    x ∈ addVisited v u := mem_addVisited.mpr (Or.inl h)

theorem self_mem_addVisited {v : List String} {u : String} :
    u ∈ addVisited v u := mem_addVisited.mpr (Or.inr rfl)

theorem addVisited_length_le {v : List String} {u : String} :
    (addVisited v u).length ≤ v.length + 1 := by
  unfold addVisited
  split
  · exact Nat.le_succ _
  · simp

theorem addVisited_nodup {v : List String} {u : String} (h : v.Nodup) :
    (addVisited v u).Nodup := by
  unfold addVisited
  split
  · exact h
  · next hu => simpa [List.nodup_append] using ⟨h, hu⟩

theorem mem_mapSet {α : Type} {m : List (String × α)} {k : String} {v : α}
    {p : String × α} (h : p ∈ mapSet m k v) : p ∈ m ∨ p = (k, v) := by
  induction m with
  | nil => simpa [mapSet] using h
  | cons q rest ih =>
    unfold mapSet at h
    split at h
    · rcases List.mem_cons.mp h with h' | h'
      · exact Or.inr h'
      · exact Or.inl (List.mem_cons_of_mem _ h')
    · rcases List.mem_cons.mp h with h' | h'
      · exact Or.inl (h' ▸ List.mem_cons_self _ _)
      · rcases ih h' with h'' | h''
        · exact Or.inl (List.mem_cons_of_mem _ h'')
        · exact Or.inr h''

theorem mapGet_mapSet_ne {α : Type} {m : List (String × α)} {k k' : String}
    {v : α} (h : k' ≠ k) : mapGet (mapSet m k v) k' = mapGet m k' := by
  induction m with
  | nil => simp [mapSet, mapGet, Ne.symm h]
  | cons q rest ih =>
    rcases q with ⟨a, b⟩
    by_cases hak : a = k
    · subst hak
      simp [mapSet, mapGet, Ne.symm h]
    · simp only [mapSet, if_neg hak, mapGet]
      by_cases hak' : a = k'
      · simp [hak']
      · simp [hak', ih]

theorem keys_mapSet {α : Type} (m : List (String × α)) (k : String) (v : α) :
    (mapSet m k v).map Prod.fst = m.map Prod.fst ∨
    (mapSet m k v).map Prod.fst = m.map Prod.fst ++ [k] := by
  induction m with
  | nil => simp [mapSet]
  | cons q rest ih =>
    unfold mapSet
    split
    · next heq => left; simp [heq]
    · rcases ih with h | h
      · left; simp [h]
      · right; simp [h]

theorem keys_mapSet_nodup {α : Type} {m : List (String × α)} {k : String}
    {v : α} (hnd : (m.map Prod.fst).Nodup) :
    ((mapSet m k v).map Prod.fst).Nodup := by
  induction m with
  | nil => simp [mapSet]
  | cons q rest ih =>
    simp only [List.map_cons, List.nodup_cons] at hnd
    unfold mapSet
    split
    · next heq =>
      simp only [List.map_cons, List.nodup_cons]
      exact ⟨heq ▸ hnd.1, hnd.2⟩
    · next hne =>
      simp only [List.map_cons, List.nodup_cons]
      refine ⟨?_, ih hnd.2⟩
      intro hmem
      rcases keys_mapSet rest k v with h | h
      · exact hnd.1 (h ▸ hmem)
      · rw [h] at hmem
        rcases List.mem_append.mp hmem with h' | h'
        · exact hnd.1 h'
        · simp only [List.mem_singleton] at h'
          exact hne h'

theorem mapGet_eq_none_of_not_mem_keys {α : Type} {m : List (String × α)}
    {k : String} (h : k ∉ m.map Prod.fst) : mapGet m k = none := by
  induction m with
  | nil => rfl
  | cons q rest ih =>
    simp only [List.map_cons, List.mem_cons, not_or] at h
    unfold mapGet
    simp only [if_neg (Ne.symm h.1)]
    exact ih h.2

theorem mapGet_ne_none_mapSet {α : Type} {m : List (String × α)} {k k' : String}
    {v : α} (h : mapGet m k' ≠ none) : mapGet (mapSet m k v) k' ≠ none := by
  by_cases hk : k' = k
  · subst hk
    induction m with
    | nil => simp [mapSet, mapGet]
    | cons q rest ih =>
      unfold mapSet
      split
      · simp [mapGet]
      · next hne =>
        unfold mapGet at h ⊢
        simp only [if_neg hne] at h ⊢
        exact ih h
  · rw [mapGet_mapSet_ne hk]; exact h

theorem mapGet_mapSet_self {α : Type} (m : List (String × α)) (k : String)
    (v : α) : mapGet (mapSet m k v) k = some v := by
  induction m with
  | nil => simp [mapSet, mapGet]
  | cons q rest ih =>
    unfold mapSet
    split
    · simp [mapGet]
    · next hne => unfold mapGet; simpa [hne] using ih

/-- The results map written by `crawlPage`: always a single `mapSet` at the
crawled URL, with the stored value an `errorResult` or an `okResult` of
that entry. -/
theorem crawlPage_results (w : World) (cfg : CrawlConfig) (e : QueueEntry)
    (st : CrawlState) :
    ∃ r, (crawlPage w cfg e st).results = mapSet st.results e.url r ∧
      r.depth = e.depth ∧ r.url = e.url ∧ r.parentUrl = e.parentUrl ∧
      ((r.error.isSome ∧ r.loadTime = none ∧ r.statusCode = none ∧
        r.title = none ∧ r.links = none ∧ r.resources = none) ∨
       (r.error = none ∧ r.loadTime.isSome ∧ r.statusCode.isSome)) := by
  unfold crawlPage
  cases hnav : w.nav e.url with
  | navError msg => exact ⟨_, rfl, rfl, rfl, rfl, Or.inl (by simp [errorResult])⟩
  | extractError msg => exact ⟨_, rfl, rfl, rfl, rfl, Or.inl (by simp [errorResult])⟩
  | ok d => exact ⟨_, rfl, rfl, rfl, rfl, Or.inr (by simp [okResult])⟩

/-- The visited set written by `crawlPage`: unchanged on a navigation
error, otherwise `addVisited` at the crawled URL. -/
theorem crawlPage_visited (w : World) (cfg : CrawlConfig) (e : QueueEntry)
    (st : CrawlState) :
    (crawlPage w cfg e st).visitedUrls = st.visitedUrls ∨
    (crawlPage w cfg e st).visitedUrls = addVisited st.visitedUrls e.url := by
  unfold crawlPage
  cases w.nav e.url with
  | navError msg => exact Or.inl rfl
  | extractError msg => exact Or.inr rfl
  | ok d => exact Or.inr rfl

/-- On the success path `crawlPage` marks the URL visited exactly when it
stores an error-free result. -/
theorem crawlPage_visited_of_ok (w : World) (cfg : CrawlConfig)
    (e : QueueEntry) (st : CrawlState) {d : PageData}
    (h : w.nav e.url = .ok d) :
    (crawlPage w cfg e st).visitedUrls = addVisited st.visitedUrls e.url := by
  unfold crawlPage
  rw [h]

theorem crawlPage_dequeued (w : World) (cfg : CrawlConfig) (e : QueueEntry)
    (st : CrawlState) : (crawlPage w cfg e st).dequeued = st.dequeued := by
  unfold crawlPage
  cases w.nav e.url <;> rfl

/-- The frontier after `crawlPage`: either untouched, or extended at the
tail with entries at depth `e.depth + 1` (only when `e.depth < maxDepth`). -/
theorem crawlPage_queue (w : World) (cfg : CrawlConfig) (e : QueueEntry)
    (st : CrawlState) :
    (crawlPage w cfg e st).crawlQueue = st.crawlQueue ∨
    (e.depth < cfg.maxDepth ∧ ∃ new, (crawlPage w cfg e st).crawlQueue =
      st.crawlQueue ++ new ∧ ∀ q ∈ new, q.depth = e.depth + 1) := by
  unfold crawlPage
  cases w.nav e.url with
  | navError msg => exact Or.inl rfl
  | extractError msg => exact Or.inl rfl
  | ok d =>
    by_cases hd : e.depth < cfg.maxDepth
    · right
      refine ⟨hd, (d.links.internal.filter
          (fun l => !(addVisited st.visitedUrls e.url).contains l &&
            decide ((addVisited st.visitedUrls e.url).length < cfg.maxPages))).map
          (fun l => QueueEntry.mk l (e.depth + 1) (some e.url)), ?_, ?_⟩
      · simp [hd]
      · intro q hq
        simp only [List.mem_map] at hq
        obtain ⟨l, _, rfl⟩ := hq
        rfl
    · left; simp [hd]

/-! ### URL-normalizer lemmas -/

theorem splitHostPath_fst_no_slash (cs : List Char) :
    '/' ∉ (splitHostPath cs).1 := by
  induction cs with
  | nil => simp [splitHostPath]
  | cons c rest ih =>
    by_cases hc : c = '/'
    · simp [splitHostPath, hc]
    · simp only [splitHostPath, if_neg hc]
      intro hmem
      rcases List.mem_cons.mp hmem with h | h
      · exact hc h.symm
      · exact ih h

theorem splitHostPath_snd_shape (cs : List Char) :
    (splitHostPath cs).2 = [] ∨ ∃ t, (splitHostPath cs).2 = '/' :: t := by
  induction cs with
  | nil => left; rfl
  | cons c rest ih =>
    by_cases hc : c = '/'
    · right
      exact ⟨rest, by simp [splitHostPath, hc]⟩
    · simpa [splitHostPath, hc] using ih

theorem splitHostPath_append_slash (h t : List Char) (hh : '/' ∉ h) :
    splitHostPath (h ++ '/' :: t) = (h, '/' :: t) := by
  induction h with
  | nil => simp [splitHostPath]
  | cons c cs ih =>
    have hc : c ≠ '/' := fun hcc => hh (hcc ▸ List.mem_cons_self _ _)
    have ih' := ih (fun hm => hh (List.mem_cons_of_mem _ hm))
    simp [splitHostPath, hc, ih']

theorem splitHostPath_no_slash (h : List Char) (hh : '/' ∉ h) :
    splitHostPath h = (h, []) := by
  induction h with
  | nil => rfl
  | cons c cs ih =>
    have hc : c ≠ '/' := fun hcc => hh (hcc ▸ List.mem_cons_self _ _)
    have ih' := ih (fun hm => hh (List.mem_cons_of_mem _ hm))
    simp [splitHostPath, hc, ih']

theorem isPrefixOf_append_self (l t : List Char) :
    l.isPrefixOf (l ++ t) = true := by
  induction l with
  | nil => simp [List.isPrefixOf]
  | cons c cs ih => simp [List.isPrefixOf, ih]

theorem https_isPrefixOf_http_append (X : List Char) :
    "https://".data.isPrefixOf ("http://".data ++ X) = false := by
  have h1 : "https://".data = ['h', 't', 't', 'p', 's', ':', '/', '/'] := rfl
  have h2 : "http://".data = ['h', 't', 't', 'p', ':', '/', '/'] := rfl
  rw [h1, h2]
  simp [List.isPrefixOf]

theorem parseAfterScheme_wf (b : Bool) (rest : List Char) (p : ParsedUrl)
    (h : parseAfterScheme b rest = some p) :
    p.host ≠ [] ∧ '/' ∉ p.host ∧ ':' ∉ p.host ∧ ∃ t, p.path = '/' :: t := by
  simp only [parseAfterScheme] at h
  split at h
  · next hcond =>
    obtain ⟨h1, h2⟩ := hcond
    obtain rfl := Option.some.inj h
    refine ⟨h1, splitHostPath_fst_no_slash rest, h2, ?_⟩
    by_cases hsnd : (splitHostPath rest).2 = []
    · exact ⟨[], by simp [hsnd]⟩
    · rcases splitHostPath_snd_shape rest with h' | ⟨t, h'⟩
      · exact absurd h' hsnd
      · exact ⟨t, by simp [hsnd, h']⟩
  · exact absurd h (by simp)

theorem parseUrl_wf (cs : List Char) (p : ParsedUrl)
    (h : parseUrl cs = some p) :
    p.host ≠ [] ∧ '/' ∉ p.host ∧ ':' ∉ p.host ∧ ∃ t, p.path = '/' :: t := by
  unfold parseUrl at h
  split at h
  · exact parseAfterScheme_wf _ _ _ h
  · split at h
    · exact parseAfterScheme_wf _ _ _ h
    · exact absurd h (by simp)

theorem stripTrailingSlash_of_ne_slash (cs : List Char)
    (h : cs.getLast? ≠ some '/') : stripTrailingSlash cs = cs := by
  unfold stripTrailingSlash
  split
  · next heq => exact absurd heq h
  · rfl

theorem stripTrailingSlash_of_slash (cs : List Char)
    (h : cs.getLast? = some '/') : stripTrailingSlash cs = cs.dropLast := by
  unfold stripTrailingSlash
  rw [h]
  rfl

/-- Parsing the serialized href of a well-formed parsed URL is the
identity (the WHATWG round-trip, for the modelled fragment). -/
theorem parseUrl_href (p : ParsedUrl) (hh : p.host ≠ []) (hs : '/' ∉ p.host)
    (hc : ':' ∉ p.host) (t : List Char) (hp : p.path = '/' :: t) :
    parseUrl (href p) = some p := by
  obtain ⟨secure, host, path⟩ := p
  simp only at hh hs hc hp
  subst hp
  have hsplit := splitHostPath_append_slash host t hs
  cases secure
  · have hhref : href ⟨false, host, '/' :: t⟩ =
        "http://".data ++ (host ++ '/' :: t) := by
      simp [href, schemeChars]
    rw [hhref]
    unfold parseUrl
    rw [https_isPrefixOf_http_append]
    have hdrop : ("http://".data ++ (host ++ '/' :: t)).drop 7 =
        host ++ '/' :: t := List.drop_left "http://".data _
    simp only [Bool.false_eq_true, if_false,
      isPrefixOf_append_self, if_true, hdrop]
    simp [parseAfterScheme, hsplit, hh, hc]
  · have hhref : href ⟨true, host, '/' :: t⟩ =
        "https://".data ++ (host ++ '/' :: t) := by
      simp [href, schemeChars]
    rw [hhref]
    unfold parseUrl
    have hdrop : ("https://".data ++ (host ++ '/' :: t)).drop 8 =
        host ++ '/' :: t := List.drop_left "https://".data _
    simp only [isPrefixOf_append_self, if_true, hdrop]
    simp [parseAfterScheme, hsplit, hh, hc]

/-- The normalizer's scheme guard accepts any serialized href. -/
theorem href_has_scheme (p : ParsedUrl) :
    "http://".data.isPrefixOf (href p) = true ∨
    "https://".data.isPrefixOf (href p) = true := by
  obtain ⟨secure, host, path⟩ := p
  cases secure
  · left
    have hhref : href ⟨false, host, path⟩ =
        "http://".data ++ (host ++ path) := by
      simp [href, schemeChars]
    rw [hhref]
    exact isPrefixOf_append_self _ _
  · right
    have hhref : href ⟨true, host, path⟩ =
        "https://".data ++ (host ++ path) := by
      simp [href, schemeChars]
    rw [hhref]
    exact isPrefixOf_append_self _ _

/-- Normalizing a well-formed href parses it back and strips at most one
trailing slash. -/
theorem normalizeUrlL_of_href (p : ParsedUrl) (hh : p.host ≠ [])
    (hs : '/' ∉ p.host) (hc : ':' ∉ p.host) (t : List Char)
    (hp : p.path = '/' :: t) :
    normalizeUrlL (href p) = some (stripTrailingSlash (href p)) := by
  simp only [normalizeUrlL]
  rw [if_pos (href_has_scheme p)]
  rw [parseUrl_href p hh hs hc t hp]
  rfl

/-- Normalizing `scheme://host` (no path) yields it back unchanged: the
parser defaults the path to `/`, the href restores it, and the strip
removes it again. -/
theorem normalizeUrlL_scheme_host (b : Bool) (host : List Char)
    (hh : host ≠ []) (hs : '/' ∉ host) (hc : ':' ∉ host) :
    normalizeUrlL (schemeChars b ++ host) =
      some (schemeChars b ++ host) := by
  have hsplit := splitHostPath_no_slash host hs
  have hpre : ("http://".data.isPrefixOf (schemeChars b ++ host) = true) ∨
      ("https://".data.isPrefixOf (schemeChars b ++ host) = true) := by
    cases b
    · exact Or.inl (by
        rw [show schemeChars false = "http://".data from rfl]
        exact isPrefixOf_append_self _ _)
    · exact Or.inr (by
        rw [show schemeChars true = "https://".data from rfl]
        exact isPrefixOf_append_self _ _)
  simp only [normalizeUrlL]
  rw [if_pos hpre]
  have hparse : parseUrl (schemeChars b ++ host) = some ⟨b, host, ['/']⟩ := by
    cases b
    · rw [show schemeChars false = "http://".data from rfl]
      unfold parseUrl
      rw [https_isPrefixOf_http_append]
      have hdrop : ("http://".data ++ host).drop 7 = host :=
        List.drop_left "http://".data host
      simp only [Bool.false_eq_true, if_false, isPrefixOf_append_self,
        if_true, hdrop]
      simp [parseAfterScheme, hsplit, hh, hc]
    · rw [show schemeChars true = "https://".data from rfl]
      unfold parseUrl
      have hdrop : ("https://".data ++ host).drop 8 = host :=
        List.drop_left "https://".data host
      simp only [isPrefixOf_append_self, if_true, hdrop]
      simp [parseAfterScheme, hsplit, hh, hc]
  rw [hparse]
  have hlast : (href ⟨b, host, ['/']⟩).getLast? = some '/' := by
    show ((schemeChars b ++ host) ++ ['/']).getLast? = some '/'
    exact List.getLast?_concat _
  simp only [Option.map_some']
  rw [stripTrailingSlash_of_slash _ hlast]
  show some (((schemeChars b ++ host) ++ ['/']).dropLast) = _
  rw [List.dropLast_concat]

/-- Normalization is the identity on any already-normalized URL that does
not end in a slash. -/
theorem normalizeUrlL_strip_fixed (p : ParsedUrl) (hh : p.host ≠ [])
    (hs : '/' ∉ p.host) (hc : ':' ∉ p.host) (t : List Char)
    (hp : p.path = '/' :: t)
    (hL : (stripTrailingSlash (href p)).getLast? ≠ some '/') :
    normalizeUrlL (stripTrailingSlash (href p)) =
      some (stripTrailingSlash (href p)) := by
  by_cases hsl : (href p).getLast? = some '/'
  case neg =>
    rw [stripTrailingSlash_of_ne_slash _ hsl,
      normalizeUrlL_of_href p hh hs hc t hp,
      stripTrailingSlash_of_ne_slash _ hsl]
  case pos =>
    have hpne : p.path ≠ [] := by rw [hp]; exact List.cons_ne_nil _ _
    have hplast : p.path.getLast? = some '/' := by
      have : (href p).getLast? = p.path.getLast? := by
        show ((schemeChars p.secure ++ p.host) ++ p.path).getLast? = _
        exact List.getLast?_append_of_ne_nil _ hpne
      rw [← this]
      exact hsl
    rw [stripTrailingSlash_of_slash _ hsl]
    cases ht : t with
    | nil =>
      have hpath : p.path = ['/'] := by rw [hp, ht]
      have hdr : (href p).dropLast = schemeChars p.secure ++ p.host := by
        show ((schemeChars p.secure ++ p.host) ++ p.path).dropLast = _
        rw [hpath]
        exact List.dropLast_concat
      rw [hdr]
      exact normalizeUrlL_scheme_host p.secure p.host hh hs hc
    | cons c ts =>
      have hpath : p.path = '/' :: c :: ts := by rw [hp, ht]
      have hdr : (href p).dropLast =
          href ⟨p.secure, p.host, '/' :: (c :: ts).dropLast⟩ := by
        show ((schemeChars p.secure ++ p.host) ++ p.path).dropLast = _
        rw [List.dropLast_append_of_ne_nil _ hpne, hpath,
          List.dropLast_cons₂]
        rfl
      rw [hdr]
      have hL' : (href ⟨p.secure, p.host, '/' :: (c :: ts).dropLast⟩).getLast? ≠
          some '/' := by
        rw [← hdr, ← stripTrailingSlash_of_slash _ hsl]
        exact hL
      rw [normalizeUrlL_of_href ⟨p.secure, p.host, '/' :: (c :: ts).dropLast⟩
        hh hs hc ((c :: ts).dropLast) rfl,
        stripTrailingSlash_of_ne_slash _ hL']

theorem isPrefixOf_self (l : List Char) : l.isPrefixOf l = true := by
  induction l with
  | nil => rfl
  | cons c rest ih => simp [List.isPrefixOf, ih]

theorem replaceFirst_self (cs : List Char) : replaceFirst cs cs = [] := by
  cases cs with
  | nil => rfl
  | cons c rest =>
    unfold replaceFirst
    rw [if_pos (isPrefixOf_self _)]
    exact List.drop_length _

/-- Folding sitemap insertions never deletes a present key. -/
theorem mapGet_sitemap_foldl_pres (startUrl : String)
    (rs : List (String × PageResult)) (acc : List (String × SitemapEntry))
    (k : String) (h : mapGet acc k ≠ none) :
    mapGet (rs.foldl (fun m p =>
      mapSet m (sitemapKey startUrl p.1) (sitemapEntryOf p.2)) acc) k ≠ none := by
  induction rs generalizing acc with
  | nil => exact h
  | cons q rest ih => exact ih _ (mapGet_ne_none_mapSet h)

theorem mapGet_sitemap_foldl (startUrl : String)
    (rs : List (String × PageResult)) :
    ∀ (p : String × PageResult) (acc : List (String × SitemapEntry)),
      p ∈ rs →
      mapGet (rs.foldl (fun m q =>
          mapSet m (sitemapKey startUrl q.1) (sitemapEntryOf q.2)) acc)
        (sitemapKey startUrl p.1) ≠ none := by
  induction rs with
  | nil => intro p acc hp; cases hp
  | cons q rest ih =>
    intro p acc hp
    rcases List.mem_cons.mp hp with rfl | hp'
    · simp only [List.foldl_cons]
      apply mapGet_sitemap_foldl_pres
      rw [mapGet_mapSet_self]
      simp
    · simp only [List.foldl_cons]
      exact ih p _ hp'

/-- Every result contributes a sitemap entry under its computed key. -/
theorem mapGet_buildSitemap_ne_none (startUrl : String)
    (rs : List (String × PageResult)) (p : String × PageResult)
    (hp : p ∈ rs) :
    mapGet (buildSitemap startUrl rs) (sitemapKey startUrl p.1) ≠ none :=
  mapGet_sitemap_foldl startUrl rs p [] hp

/-- Complete case description of `crawlPage`: a navigation error stores
the five-field error object and leaves the visited set and frontier
alone; an extraction error additionally marks the URL visited; success
marks it visited, stores the extracted result, and (below `maxDepth`)
appends the fresh internal links to the frontier tail. -/
theorem crawlPage_cases (w : World) (cfg : CrawlConfig) (e : QueueEntry)
    (st : CrawlState) :
    (∃ msg, w.nav e.url = .navError msg ∧ crawlPage w cfg e st =
      { st with attempts := st.attempts ++ [e.url], clock := st.clock + 1,
                results := mapSet st.results e.url
                  (errorResult e msg (st.clock + 1)) }) ∨
    (∃ msg, w.nav e.url = .extractError msg ∧ crawlPage w cfg e st =
      { st with attempts := st.attempts ++ [e.url], clock := st.clock + 1,
                visitedUrls := addVisited st.visitedUrls e.url,
                results := mapSet st.results e.url
                  (errorResult e msg (st.clock + 1)) }) ∨
    (∃ d, w.nav e.url = .ok d ∧ crawlPage w cfg e st =
      { st with attempts := st.attempts ++ [e.url], clock := st.clock + 1,
                visitedUrls := addVisited st.visitedUrls e.url,
                results := mapSet st.results e.url
                  (okResult e d (st.clock + 1)),
                crawlQueue := st.crawlQueue ++
                  (if e.depth < cfg.maxDepth then
                    (d.links.internal.filter (fun l =>
                      !(addVisited st.visitedUrls e.url).contains l &&
                      decide ((addVisited st.visitedUrls e.url).length <
                        cfg.maxPages))).map
                      (fun l => QueueEntry.mk l (e.depth + 1) (some e.url))
                   else []) }) := by
  unfold crawlPage
  cases hnav : w.nav e.url with
  | navError msg => exact Or.inl ⟨msg, rfl, rfl⟩
  | extractError msg => exact Or.inr (Or.inl ⟨msg, rfl, rfl⟩)
  | ok d => exact Or.inr (Or.inr ⟨d, rfl, rfl⟩)

/-- Invariant preservation through the crawl loop: if `P` survives popping
the frontier head and survives `crawlPage` under the loop's guards, then
`P` holds of the state the loop returns. -/
theorem crawlLoopE_preserves (w : World) (cfg : CrawlConfig)
    (P : CrawlState → Prop)
    (hpop : ∀ st e rest, st.crawlQueue = e :: rest →
      st.visitedUrls.length < cfg.maxPages → P st →
      P { st with crawlQueue := rest, dequeued := st.dequeued ++ [e] })
    (hpage : ∀ st e, e.url ∉ st.visitedUrls → e.depth ≤ cfg.maxDepth →
      isAllowedByRobots cfg w.robots e.url = true →
      st.visitedUrls.length < cfg.maxPages →
      st.dequeued.getLast? = some e →
      P st → P (crawlPage w cfg e st)) :
    ∀ fuel st, P st → P (crawlLoopE w cfg fuel st).1 := by
  intro fuel
  induction fuel with
  | zero => intro st h; exact h
  | succ n ih =>
    intro st h
    unfold crawlLoopE
    cases hq : st.crawlQueue with
    | nil => exact h
    | cons e rest =>
      by_cases hbudget : st.visitedUrls.length < cfg.maxPages
      · simp only [if_pos hbudget]
        have hpop' := hpop st e rest hq hbudget h
        by_cases hvis : e.url ∈ st.visitedUrls
        · simp only [if_pos hvis]
          exact ih _ hpop'
        · simp only [if_neg hvis]
          by_cases hdepth : cfg.maxDepth < e.depth
          · simp only [if_pos hdepth]
            exact ih _ hpop'
          · simp only [if_neg hdepth]
            by_cases hrob : isAllowedByRobots cfg w.robots e.url = true
            · simp only [hrob, if_true]
              by_cases hnp : w.newPageFails e.url = true
              · simp only [hnp, if_true]
                exact hpop'
              · simp only [Bool.not_eq_true] at hnp
                simp only [hnp, Bool.false_eq_true, if_false]
                refine ih _ (hpage _ e hvis (Nat.le_of_not_lt hdepth) hrob hbudget ?_ hpop')
                simp
            · simp only [Bool.not_eq_true] at hrob
              simp only [hrob, Bool.false_eq_true, if_false]
              exact ih _ hpop'
      · simp only [if_neg hbudget]
        exact h

theorem chain'_le_of_const (l : List Nat) (c : Nat) (h : ∀ x ∈ l, x = c) :
    List.Chain' (· ≤ ·) l := by
  induction l with
  | nil => exact List.chain'_nil
  | cons x xs ih =>
    cases xs with
    | nil => exact List.chain'_singleton _
    | cons y ys =>
      rw [List.chain'_cons]
      refine ⟨?_, ih ?_⟩
      · rw [h x (List.mem_cons_self _ _),
          h y (List.mem_cons_of_mem _ (List.mem_cons_self _ _))]
      · intro z hz
        exact h z (List.mem_cons_of_mem _ hz)

theorem bfsInv_init (seed : String) : BfsInv (initState seed) := by
  constructor
  · exact List.chain'_singleton _
  · intro q hq
    simp only [initState, List.mem_singleton] at hq
    subst hq
    simp [lastDepth, initState]

/-- Popping the frontier head preserves the BFS invariant. -/
theorem bfsInv_pop (st : CrawlState) (e : QueueEntry) (rest : List QueueEntry)
    (hq : st.crawlQueue = e :: rest) (hP : BfsInv st) :
    BfsInv { st with crawlQueue := rest, dequeued := st.dequeued ++ [e] } := by
  obtain ⟨hchain, hbound⟩ := hP
  rw [hq] at hchain
  have hchain' : List.Chain' (· ≤ ·)
      ((st.dequeued.map QueueEntry.depth) ++
        (e.depth :: rest.map QueueEntry.depth)) := by
    simpa using hchain
  constructor
  · show List.Chain' (· ≤ ·)
      (((st.dequeued ++ [e]).map QueueEntry.depth) ++
        rest.map QueueEntry.depth)
    rw [List.map_append, List.append_assoc]
    simpa using hchain'
  · intro q hq'
    have hle : q.depth ≤ lastDepth st + 1 := by
      apply hbound
      rw [hq]
      exact List.mem_cons_of_mem _ hq'
    have hlast : lastDepth { st with
        crawlQueue := rest,
        dequeued := st.dequeued ++ [e] } = e.depth := by
      show (((st.dequeued ++ [e]).map QueueEntry.depth).getLast?).getD 0 = e.depth
      rw [List.map_append]
      simp only [List.map_cons, List.map_nil]
      rw [List.getLast?_concat]
      rfl
    rw [hlast]
    have hld : lastDepth st ≤ e.depth := by
      obtain ⟨-, -, hglue⟩ := List.chain'_append.mp hchain'
      unfold lastDepth
      cases hA : (st.dequeued.map QueueEntry.depth).getLast? with
      | none => exact Nat.zero_le _
      | some x =>
        have hx := hglue x hA e.depth rfl
        simpa using hx
    exact le_trans hle (Nat.succ_le_succ hld)

/-- Appending depth-`c+1` entries at the frontier tail preserves the BFS
invariant once the last dequeued depth is `c`. -/
theorem bfsInv_extend (st st' : CrawlState) (xs : List QueueEntry) (c : Nat)
    (hdq : st'.dequeued = st.dequeued)
    (hq : st'.crawlQueue = st.crawlQueue ++ xs)
    (hxs : ∀ q ∈ xs, q.depth = c + 1)
    (hbnd : ∀ q ∈ st.crawlQueue, q.depth ≤ c + 1)
    (hchain : List.Chain' (· ≤ ·)
      ((st.dequeued.map QueueEntry.depth) ++
        (st.crawlQueue.map QueueEntry.depth)))
    (hlastD : (st.dequeued.map QueueEntry.depth).getLast? = some c) :
    BfsInv st' := by
  constructor
  · rw [hdq, hq, List.map_append, ← List.append_assoc, List.chain'_append]
    refine ⟨hchain, chain'_le_of_const _ (c + 1) ?_, ?_⟩
    · intro x hx
      rw [List.mem_map] at hx
      obtain ⟨q, hq', rfl⟩ := hx
      exact hxs q hq'
    · intro x hxl y hy
      have hy' : y = c + 1 := by
        have hym : y ∈ xs.map QueueEntry.depth := List.mem_of_mem_head? hy
        rw [List.mem_map] at hym
        obtain ⟨q, hq', rfl⟩ := hym
        exact hxs q hq'
      subst hy'
      cases hqe : st.crawlQueue.map QueueEntry.depth with
      | nil =>
        rw [hqe, List.append_nil, hlastD] at hxl
        have hx' : c = x := by simpa using hxl
        omega
      | cons z zs =>
        have hne : st.crawlQueue.map QueueEntry.depth ≠ [] := by
          rw [hqe]
          simp
        rw [List.getLast?_append_of_ne_nil _ hne] at hxl
        have hx' : x ∈ st.crawlQueue.map QueueEntry.depth :=
          List.mem_of_mem_getLast? hxl
        rw [List.mem_map] at hx'
        obtain ⟨q, hq', rfl⟩ := hx'
        exact hbnd q hq'
  · intro q hq'
    rw [hq] at hq'
    have hlast' : lastDepth st' = c := by
      unfold lastDepth
      rw [hdq, hlastD]
      rfl
    rw [hlast']
    rcases List.mem_append.mp hq' with h' | h'
    · exact hbnd q h'
    · rw [hxs q h']

/-- `crawlPage` preserves the BFS invariant: the only frontier change is
appending entries one level below the entry just dequeued. -/
theorem bfsInv_page (w : World) (cfg : CrawlConfig) (st : CrawlState)
    (e : QueueEntry) (hlaste : st.dequeued.getLast? = some e)
    (hP : BfsInv st) : BfsInv (crawlPage w cfg e st) := by
  obtain ⟨hchain, hbound⟩ := hP
  have hlastD : (st.dequeued.map QueueEntry.depth).getLast? = some e.depth := by
    rw [List.getLast?_map, hlaste]
    rfl
  have hbnd : ∀ q ∈ st.crawlQueue, q.depth ≤ e.depth + 1 := by
    intro q hq
    have hb := hbound q hq
    unfold lastDepth at hb
    rw [hlastD] at hb
    exact hb
  rcases crawlPage_cases w cfg e st with ⟨msg, hnav, heq⟩ | ⟨msg, hnav, heq⟩ |
    ⟨d, hnav, heq⟩
  · rw [heq]
    exact ⟨hchain, hbound⟩
  · rw [heq]
    exact ⟨hchain, hbound⟩
  · rw [heq]
    refine bfsInv_extend st _
      (if e.depth < cfg.maxDepth then
        (d.links.internal.filter (fun l =>
          !(addVisited st.visitedUrls e.url).contains l &&
          decide ((addVisited st.visitedUrls e.url).length < cfg.maxPages))).map
          (fun l => QueueEntry.mk l (e.depth + 1) (some e.url))
       else []) e.depth ?_ ?_ ?_ hbnd hchain hlastD
    · rfl
    · rfl
    · intro q hq'
      by_cases hd : e.depth < cfg.maxDepth
      · rw [if_pos hd] at hq'
        rw [List.mem_map] at hq'
        obtain ⟨l, -, rfl⟩ := hq'
        rfl
      · rw [if_neg hd] at hq'
        cases hq'

theorem specAvgLoadTime_eq (rs : List PageResult) (xs : List Nat)
    (h : rs.filterMap (fun r => r.loadTime) = xs) :
    specAvgLoadTime rs = ((xs.map (fun t : Nat => (t : ℚ))).sum) / (xs.length : ℚ) := by
  unfold specAvgLoadTime
  rw [h]

/-- The reduce `(sum, page) ↦ sum + loadTime / arr.length` accumulates the
sum of the samples divided by the fixed denominator. -/
theorem foldl_add_div (xs : List Nat) (n : ℚ) (a : ℚ) :
    xs.foldl (fun acc (t : Nat) => acc + (t : ℚ) / n) a =
      a + ((xs.map (fun t : Nat => (t : ℚ))).sum) / n := by
  induction xs generalizing a with
  | nil => simp
  | cons x xs ih =>
    rw [List.foldl_cons, ih, List.map_cons, List.sum_cons, add_div]
    ring

/-- Results whose error field forces an absent load time contribute the
same samples whether or not errored entries are filtered out first. -/
theorem loadTimeSamples_filter_errors (rs : List PageResult)
    (h : ∀ r ∈ rs, r.error.isSome = true → r.loadTime = none) :
    loadTimeSamples (rs.filter (fun r => r.error.isNone)) =
      loadTimeSamples rs := by
  induction rs with
  | nil => rfl
  | cons r rs ih =>
    have ih' := ih (fun r hr he => h r (List.mem_cons_of_mem _ hr) he)
    by_cases he : r.error.isNone
    · rw [List.filter_cons_of_pos (by simpa using he)]
      unfold loadTimeSamples
      simp only [List.filterMap_cons]
      unfold loadTimeSamples at ih'
      cases r.loadTime <;> simp_all
    · have hlt : r.loadTime = none := by
        apply h r (List.mem_cons_self _ _)
        cases hre : r.error
        · simp [hre] at he
        · simp
      rw [List.filter_cons_of_neg (by simpa using he)]
      unfold loadTimeSamples
      unfold loadTimeSamples at ih'
      simp only [List.filterMap_cons, hlt]
      exact ih'

/-! ## C1 — failure semantics of a navigation error -/

/-- C1 counterexample: in `failWorld` the URL `/a` fails navigation; the
completed crawl (empty frontier) has navigated to it twice — a retry,
because its first failure never marked it visited — it is absent from the
visited set (so it never counted toward the page budget), yet its error
PageResult is in the results map.  This falsifies "does not retry the URL
(one attempt per URL), counts the URL as visited and toward the maxPages
page budget". -/
theorem navError_retried_not_visited :
    failState.attempts.count "https://example.com/a" = 2 ∧
    "https://example.com/a" ∉ failState.visitedUrls ∧
    (mapGet failState.results "https://example.com/a").isSome = true ∧
    failState.crawlQueue = [] := by decide

/-- C1 (amended): when the frontier head's navigation fails, the loop
iteration stores exactly the five-field PageResult
`{url, error, depth, parentUrl, crawledAt}` for it and continues with the
remaining frontier without throwing — but it leaves the visited set (the
measure the page budget is enforced on) untouched, so the URL does not
count toward `maxPages` and can be navigated again if rediscovered. -/
theorem navError_failure_semantics (w : World) (cfg : CrawlConfig)
    (e : QueueEntry) (st : CrawlState) (msg : String) (fuel : Nat)
    (rest : List QueueEntry)
    (hnav : w.nav e.url = NavOutcome.navError msg)
    (hq : st.crawlQueue = e :: rest)
    (hbudget : st.visitedUrls.length < cfg.maxPages)
    (hvis : e.url ∉ st.visitedUrls)
    (hdepth : e.depth ≤ cfg.maxDepth)
    (hrobots : isAllowedByRobots cfg w.robots e.url = true)
    (hpage : w.newPageFails e.url = false) :
    crawlLoopE w cfg (fuel + 1) st =
      crawlLoopE w cfg fuel
        { st with crawlQueue := rest,
                  dequeued := st.dequeued ++ [e],
                  attempts := st.attempts ++ [e.url],
                  clock := st.clock + 1,
                  results := mapSet st.results e.url
                    { url := e.url, error := some msg, depth := e.depth,
                      parentUrl := e.parentUrl, crawledAt := st.clock + 1,
                      title := none, statusCode := none, loadTime := none,
                      links := none, resources := none } } := by
  conv_lhs => rw [crawlLoopE]
  rw [hq]
  simp only [if_pos hbudget, if_neg hvis, Nat.not_lt.mpr hdepth, if_neg,
    hrobots, if_true, hpage, Bool.false_eq_true, if_false]
  congr 1
  unfold crawlPage
  rw [hnav]
  rfl

/-- Closed instance of `navError_failure_semantics` at `failWorld` after
the seed has been crawled: dequeuing the failing `/a` stores its error
result and the loop moves on to `/b`. -/
theorem navError_failure_semantics_witness :
    crawlLoopE failWorld defaultCfg 6 c1State =
      crawlLoopE failWorld defaultCfg 5
        { c1State with
          crawlQueue := [⟨"https://example.com/b", 1, some "https://example.com"⟩],
          dequeued := c1State.dequeued ++
            [⟨"https://example.com/a", 1, some "https://example.com"⟩],
          attempts := c1State.attempts ++ ["https://example.com/a"],
          clock := c1State.clock + 1,
          results := mapSet c1State.results "https://example.com/a"
            { url := "https://example.com/a",
              error := some "net::ERR_CONNECTION_TIMED_OUT",
              depth := 1, parentUrl := some "https://example.com",
              crawledAt := c1State.clock + 1,
              title := none, statusCode := none, loadTime := none,
              links := none, resources := none } } :=
  navError_failure_semantics failWorld defaultCfg
    ⟨"https://example.com/a", 1, some "https://example.com"⟩ c1State
    "net::ERR_CONNECTION_TIMED_OUT" 5
    [⟨"https://example.com/b", 1, some "https://example.com"⟩]
    (by decide) (by decide) (by decide) (by decide) (by decide) (by decide)
    (by decide)

/-! ## C2 — results-map size versus `maxPages` -/

/-- C2 counterexample: with `maxPages = 2`, the crawl in `budgetWorld`
completes with three PageResults in the results map (the successful seed
plus two error results, which never enter the visited set the budget is
measured on); the report's `totalPages` still says 1. -/
theorem results_exceed_maxPages :
    budgetCfg.maxPages = 2 ∧
    overBudgetState.results.length = 3 ∧
    overBudgetState.crawlQueue = [] ∧
    (generateReport "https://example.com" budgetCfg overBudgetState).totalPages = 1 ∧
    (generateReport "https://example.com" budgetCfg overBudgetState).sitemap.length = 3 := by
  decide

/-- C2 (amended): in every reachable state of a crawl (any fuel cutoff of
the loop) the visited set — on which the `maxPages` budget is enforced —
and the set of error-free PageResults both have size at most `maxPages`;
the results map itself may exceed `maxPages`, because error PageResults
are stored without entering the visited set. -/
theorem visited_and_success_bounded (w : World) (cfg : CrawlConfig)
    (seed : String) (fuel : Nat) :
    (crawlLoopE w cfg fuel (initState seed)).1.visitedUrls.length ≤ cfg.maxPages ∧
    ((crawlLoopE w cfg fuel (initState seed)).1.results.filter
        (fun p => p.2.error.isNone)).length ≤ cfg.maxPages := by
  have h := crawlLoopE_preserves w cfg
    (fun st => st.visitedUrls.length ≤ cfg.maxPages ∧
      (∀ p ∈ st.results, p.2.error.isNone = true → p.1 ∈ st.visitedUrls) ∧
      (st.results.map Prod.fst).Nodup)
    (fun st e rest _ _ hP => hP)
    (fun st e hvis hdepth hrob hbudget hlast hP => by
      obtain ⟨h1, h2, h3⟩ := hP
      rcases crawlPage_cases w cfg e st with ⟨msg, hnav, heq⟩ | ⟨msg, hnav, heq⟩ |
        ⟨d, hnav, heq⟩ <;> rw [heq]
      · refine ⟨h1, ?_, keys_mapSet_nodup h3⟩
        intro p hp hpn
        rcases mem_mapSet hp with hp' | hp'
        · exact h2 p hp' hpn
        · subst hp'; simp [errorResult] at hpn
      · refine ⟨le_trans addVisited_length_le (Nat.succ_le_of_lt hbudget), ?_,
          keys_mapSet_nodup h3⟩
        intro p hp hpn
        rcases mem_mapSet hp with hp' | hp'
        · exact subset_addVisited (h2 p hp' hpn)
        · subst hp'; simp [errorResult] at hpn
      · refine ⟨le_trans addVisited_length_le (Nat.succ_le_of_lt hbudget), ?_,
          keys_mapSet_nodup h3⟩
        intro p hp hpn
        rcases mem_mapSet hp with hp' | hp'
        · exact subset_addVisited (h2 p hp' hpn)
        · subst hp'; exact self_mem_addVisited)
    fuel (initState seed)
    ⟨Nat.zero_le _, by simp [initState], by simp [initState]⟩
  obtain ⟨hb, hsv, hnd⟩ := h
  refine ⟨hb, ?_⟩
  have hsl : List.Sublist
      (((crawlLoopE w cfg fuel (initState seed)).1.results.filter
        (fun p => p.2.error.isNone)).map Prod.fst)
      ((crawlLoopE w cfg fuel (initState seed)).1.results.map Prod.fst) :=
    (List.filter_sublist _).map Prod.fst
  have hndf := hsl.nodup hnd
  have hsub : ∀ x ∈ ((crawlLoopE w cfg fuel (initState seed)).1.results.filter
      (fun p => p.2.error.isNone)).map Prod.fst,
      x ∈ (crawlLoopE w cfg fuel (initState seed)).1.visitedUrls := by
    intro x hx
    rw [List.mem_map] at hx
    obtain ⟨p, hp, rfl⟩ := hx
    exact hsv p (List.mem_filter.mp hp).1 (List.mem_filter.mp hp).2
  calc ((crawlLoopE w cfg fuel (initState seed)).1.results.filter
      (fun p => p.2.error.isNone)).length
      = (((crawlLoopE w cfg fuel (initState seed)).1.results.filter
        (fun p => p.2.error.isNone)).map Prod.fst).length := by
        rw [List.length_map]
    _ = (((crawlLoopE w cfg fuel (initState seed)).1.results.filter
        (fun p => p.2.error.isNone)).map Prod.fst).toFinset.card :=
        (List.toFinset_card_of_nodup hndf).symm
    _ ≤ (crawlLoopE w cfg fuel (initState seed)).1.visitedUrls.toFinset.card :=
        Finset.card_le_card (fun x hx =>
          List.mem_toFinset.mpr (hsub x (List.mem_toFinset.mp hx)))
    _ ≤ (crawlLoopE w cfg fuel (initState seed)).1.visitedUrls.length :=
        List.toFinset_card_le _
    _ ≤ cfg.maxPages := hb

/-! ## C3 — depth bound and discarding of too-deep entries -/

/-- C3: every PageResult ever stored in the results map has depth at most
`maxDepth`, and a frontier entry whose depth exceeds `maxDepth` is
discarded without ending the crawl: the loop continues with the remaining
frontier, with visited set and results (hence any future PageResults)
untouched by the entry. -/
theorem depth_bounded_and_deep_entries_discarded (w : World)
    (cfg : CrawlConfig) (seed : String) (fuel : Nat) :
    (∀ p ∈ (crawlLoopE w cfg fuel (initState seed)).1.results,
        p.2.depth ≤ cfg.maxDepth) ∧
    (∀ (st : CrawlState) (e : QueueEntry) (rest : List QueueEntry)
        (fuel' : Nat), st.crawlQueue = e :: rest →
        st.visitedUrls.length < cfg.maxPages → cfg.maxDepth < e.depth →
        crawlLoopE w cfg (fuel' + 1) st = crawlLoopE w cfg fuel'
          { st with crawlQueue := rest, dequeued := st.dequeued ++ [e] }) := by
  constructor
  · have h := crawlLoopE_preserves w cfg
      (fun st => ∀ p ∈ st.results, p.2.depth ≤ cfg.maxDepth)
      (fun st e rest _ _ hP => hP)
      (fun st e hvis hdepth hrob hbudget hlast hP => by
        rcases crawlPage_cases w cfg e st with ⟨msg, hnav, heq⟩ |
          ⟨msg, hnav, heq⟩ | ⟨d, hnav, heq⟩ <;> rw [heq] <;>
          intro p hp <;> rcases mem_mapSet hp with hp' | hp'
        · exact hP p hp'
        · subst hp'; exact hdepth
        · exact hP p hp'
        · subst hp'; exact hdepth
        · exact hP p hp'
        · subst hp'; exact hdepth)
      fuel (initState seed) (by simp [initState])
    exact h
  · intro st e rest fuel' hq hbudget hdeep
    conv_lhs => rw [crawlLoopE]
    rw [hq]
    simp only [if_pos hbudget]
    by_cases hvis : e.url ∈ st.visitedUrls
    · simp only [if_pos hvis]
    · simp only [if_neg hvis, if_pos hdeep]

/-- Closed instance of the discard clause: a depth-6 frontier entry under
`maxDepth = 5` is dropped and the loop moves on. -/
theorem depth_deep_entry_discarded_witness :
    crawlLoopE failWorld defaultCfg 1 deepState =
      crawlLoopE failWorld defaultCfg 0
        { deepState with
          crawlQueue := [],
          dequeued := deepState.dequeued ++
            [⟨"https://example.com/deep", 6, some "https://example.com"⟩] } :=
  (depth_bounded_and_deep_entries_discarded failWorld defaultCfg
      "https://example.com" 1).2 deepState
    ⟨"https://example.com/deep", 6, some "https://example.com"⟩ [] 0
    (by decide) (by decide) (by decide)

/-! ## C4 — browser lifecycle -/

/-- C4: the browser event trace of a crawl job is empty exactly when the
seed URL fails to parse or the browser launch fails (no process ever
exists); in every other case — normal completion or an error escaping the
loop — it is `[launch, close]`: one launch, one close, with the close
recorded before the outcome (success or propagated error) is returned. -/
theorem browser_launched_once_closed_once (w : World) (cfg : CrawlConfig)
    (url : String) (fuel : Nat) :
    ((crawlWebsite w cfg url fuel).1 = [] ↔
      normalizeUrl url = none ∨ w.launchFails = true) ∧
    ((crawlWebsite w cfg url fuel).1 = [] ∨
      (crawlWebsite w cfg url fuel).1 =
        [BrowserEvent.launch, BrowserEvent.close]) := by
  unfold crawlWebsite
  cases hn : normalizeUrl url with
  | none => simp
  | some seed =>
    unfold crawl
    by_cases hl : w.launchFails
    · simp [hl]
    · simp only [hl, Bool.false_eq_true, if_false]
      rcases hres : crawlLoopE w cfg fuel (initState seed) with ⟨st, err⟩
      cases err <;> simp

/-! ## C5 — breadth-first dequeue order -/

/-- C5: under the sequential drain of the FIFO frontier, the sequence of
entries dequeued and considered by the loop has non-decreasing depth: in
any reachable state (any fuel), every frontier entry of depth N was
dequeued before any entry of depth N+1. -/
theorem frontier_bfs_order (w : World) (cfg : CrawlConfig) (seed : String)
    (fuel : Nat) :
    List.Pairwise (fun a b : QueueEntry => a.depth ≤ b.depth)
      (crawlLoopE w cfg fuel (initState seed)).1.dequeued := by
  have hinv := crawlLoopE_preserves w cfg BfsInv
    (fun st e rest hq _ hP => bfsInv_pop st e rest hq hP)
    (fun st e _ _ _ _ hlast hP => bfsInv_page w cfg st e hlast hP)
    fuel (initState seed) (bfsInv_init seed)
  obtain ⟨hchain, -⟩ := hinv
  have hchainD := (List.chain'_append.mp hchain).1
  have hpw := List.chain'_iff_pairwise.mp hchainD
  exact List.pairwise_map.mp hpw

/-! ## C6 — robots.txt gating -/

/-- C6: if `respectRobotsTxt` is on and the loaded policy disallows a
URL for the configured user agent, that URL never appears in the results
map of any reachable crawl state; and with `respectRobotsTxt` off the
robots check is bypassed entirely — it answers `true` whatever the loaded
policy says. -/
theorem robots_disallowed_never_in_results (w : World) (cfg : CrawlConfig)
    (p : RobotsPolicy) (url seed : String) (fuel : Nat)
    (hresp : cfg.respectRobotsTxt = true)
    (hrob : w.robots = some p)
    (hdis : p.isAllowed url cfg.userAgent = false) :
    mapGet (crawlLoopE w cfg fuel (initState seed)).1.results url = none ∧
    (∀ (cfg' : CrawlConfig) (robots' : Option RobotsPolicy) (u : String),
      cfg'.respectRobotsTxt = false → isAllowedByRobots cfg' robots' u = true) := by
  constructor
  · have h := crawlLoopE_preserves w cfg
      (fun st => mapGet st.results url = none)
      (fun st e rest _ _ hP => hP)
      (fun st e hvis hdepth hrobA hbudget hlast hP => by
        have hne : url ≠ e.url := by
          intro he
          rw [← he] at hrobA
          unfold isAllowedByRobots at hrobA
          rw [hresp, hrob] at hrobA
          simp [hdis] at hrobA
        rcases crawlPage_cases w cfg e st with ⟨msg, hnav, heq⟩ |
          ⟨msg, hnav, heq⟩ | ⟨d, hnav, heq⟩ <;> rw [heq] <;>
          simpa [mapGet_mapSet_ne hne] using hP)
      fuel (initState seed) (by simp [initState, mapGet])
    exact h
  · intro cfg' robots' u h'
    unfold isAllowedByRobots
    rw [h']
    rfl

/-- Closed instance: the disallowed `/secret` URL, linked from the seed
in `robotsWorld`, is absent from the finished crawl's results map. -/
theorem robots_disallowed_never_in_results_witness :
    mapGet (crawlLoopE robotsWorld robotsCfg 20
      (initState "https://example.com")).1.results
      "https://example.com/secret" = none :=
  (robots_disallowed_never_in_results robotsWorld robotsCfg blockPolicy
    "https://example.com/secret" "https://example.com" 20
    (by decide) rfl (by decide)).1

/-! ## C7 — the average-load-time statistic -/

/-- C7 counterexample: both pages of `zeroLoadWorld` complete navigation,
with load times 0 and 10; the arithmetic mean over pages that completed
navigation is 5, but the report computes 10, because the truthiness filter
`page => page.loadTime` also drops the zero sample. -/
theorem avgLoadTime_drops_zero_sample :
    (∀ p ∈ zeroLoadState.results, p.2.error = none ∧ p.2.loadTime.isSome) ∧
    (generateReport "https://example.com" defaultCfg zeroLoadState).statistics.avgLoadTime = 10 ∧
    specAvgLoadTime (zeroLoadState.results.map Prod.snd) = 5 ∧
    zeroLoadState.crawlQueue = [] := by
  have hsamp : loadTimeSamples (zeroLoadState.results.map Prod.snd) = [10] := by
    decide
  have hall : (zeroLoadState.results.map Prod.snd).filterMap (fun r => r.loadTime) =
      [0, 10] := by decide
  refine ⟨by decide, ?_, ?_, by decide⟩
  · show avgLoadTimeOf (zeroLoadState.results.map Prod.snd) = 10
    simp only [avgLoadTimeOf, hsamp]
    norm_num
  · rw [specAvgLoadTime_eq _ [0, 10] hall]
    norm_num

/-- C7 (amended): the report's `avgLoadTime` is the arithmetic mean of
`loadTime` over exactly the PageResults with a present *and nonzero*
recorded load time (`loadTimeSamples`: the truthiness filter also drops a
0 ms page); errored PageResults carry no load-time sample, so filtering
them out first changes nothing; and every errored PageResult has absent
`loadTime` and `statusCode`, also in its sitemap entry, alongside its
error message. -/
theorem avgLoadTime_semantics (w : World) (cfg : CrawlConfig)
    (seed : String) (fuel : Nat) :
    (generateReport seed cfg
        (crawlLoopE w cfg fuel (initState seed)).1).statistics.avgLoadTime =
      ((loadTimeSamples ((crawlLoopE w cfg fuel
          (initState seed)).1.results.map Prod.snd)).map
        (fun t : Nat => (t : ℚ))).sum /
      ((loadTimeSamples ((crawlLoopE w cfg fuel
          (initState seed)).1.results.map Prod.snd)).length : ℚ) ∧
    loadTimeSamples
        (((crawlLoopE w cfg fuel (initState seed)).1.results.map
          Prod.snd).filter (fun r => r.error.isNone)) =
      loadTimeSamples
        ((crawlLoopE w cfg fuel (initState seed)).1.results.map Prod.snd) ∧
    ∀ r ∈ (crawlLoopE w cfg fuel (initState seed)).1.results.map Prod.snd,
      r.error.isSome = true →
      r.loadTime = none ∧ r.statusCode = none ∧
      (sitemapEntryOf r).loadTime = none ∧
      (sitemapEntryOf r).statusCode = none := by
  have hinv := crawlLoopE_preserves w cfg
    (fun st => ∀ p ∈ st.results, p.2.error.isSome = true →
      p.2.loadTime = none ∧ p.2.statusCode = none)
    (fun st e rest _ _ hP => hP)
    (fun st e hvis hdepth hrob hbudget hlast hP => by
      rcases crawlPage_cases w cfg e st with ⟨msg, hnav, heq⟩ |
        ⟨msg, hnav, heq⟩ | ⟨d, hnav, heq⟩ <;> rw [heq] <;>
        intro p hp he <;> rcases mem_mapSet hp with hp' | hp'
      · exact hP p hp' he
      · subst hp'; exact ⟨rfl, rfl⟩
      · exact hP p hp' he
      · subst hp'; exact ⟨rfl, rfl⟩
      · exact hP p hp' he
      · subst hp'; simp [okResult] at he)
    fuel (initState seed) (by simp [initState])
  refine ⟨?_, ?_, ?_⟩
  · show avgLoadTimeOf
        ((crawlLoopE w cfg fuel (initState seed)).1.results.map Prod.snd) = _
    simp only [avgLoadTimeOf]
    rw [foldl_add_div, zero_add]
  · apply loadTimeSamples_filter_errors
    intro r hr he
    rw [List.mem_map] at hr
    obtain ⟨p, hp, rfl⟩ := hr
    exact (hinv p hp he).1
  · intro r hr he
    rw [List.mem_map] at hr
    obtain ⟨p, hp, rfl⟩ := hr
    obtain ⟨h1, h2⟩ := hinv p hp he
    exact ⟨h1, h2, by simp [sitemapEntryOf, h1], by simp [sitemapEntryOf, h2]⟩

/-- Closed instance: the errored `/a` PageResult of the `budgetWorld`
crawl has absent load time and status, also in its sitemap entry. -/
theorem avgLoadTime_semantics_witness :
    (errorResult ⟨"https://example.com/a", 1, some "https://example.com"⟩
        "net::ERR_NAME_NOT_RESOLVED" 2).loadTime = none ∧
    (errorResult ⟨"https://example.com/a", 1, some "https://example.com"⟩
        "net::ERR_NAME_NOT_RESOLVED" 2).statusCode = none ∧
    (sitemapEntryOf (errorResult
        ⟨"https://example.com/a", 1, some "https://example.com"⟩
        "net::ERR_NAME_NOT_RESOLVED" 2)).loadTime = none ∧
    (sitemapEntryOf (errorResult
        ⟨"https://example.com/a", 1, some "https://example.com"⟩
        "net::ERR_NAME_NOT_RESOLVED" 2)).statusCode = none :=
  (avgLoadTime_semantics budgetWorld budgetCfg "https://example.com" 20).2.2
    (errorResult ⟨"https://example.com/a", 1, some "https://example.com"⟩
      "net::ERR_NAME_NOT_RESOLVED" 2)
    (by decide) (by decide)

/-! ## C8 — sitemap keying -/

/-- C8 counterexample: with seed `https://example.com/blog`, the crawled
page `https://example.com/about` is in the results map, and its
origin-stripped path is `/about` — but the sitemap has no `/about` key:
the code strips the full seed URL (a no-op here), keying the entry by the
complete URL. -/
theorem sitemap_not_origin_stripped :
    specSitemapKey "https://example.com/blog" "https://example.com/about" =
      some "/about" ∧
    (mapGet pathSeedState.results "https://example.com/about").isSome = true ∧
    (buildSitemap "https://example.com/blog" pathSeedState.results).map Prod.fst =
      ["/", "https://example.com/about"] ∧
    mapGet (buildSitemap "https://example.com/blog" pathSeedState.results) "/about" =
      none ∧
    pathSeedState.crawlQueue = [] := by decide

/-- C8 (amended): the sitemap is keyed by the page URL with the first
occurrence of the full normalized *seed URL* (not the seed origin)
removed, an empty remainder becoming `/` — so the seed page itself is
keyed `/` — and the final report's sitemap has an entry under that key
for every entry of the results map (a colliding key shares one entry). -/
theorem sitemap_keyed_by_seed_replaced (w : World) (cfg : CrawlConfig)
    (seed : String) (fuel : Nat) :
    sitemapKey seed seed = "/" ∧
    ∀ p ∈ (crawlLoopE w cfg fuel (initState seed)).1.results,
      mapGet (generateReport seed cfg
          (crawlLoopE w cfg fuel (initState seed)).1).sitemap
        (sitemapKey seed p.1) ≠ none := by
  constructor
  · unfold sitemapKey
    rw [replaceFirst_self]
    rfl
  · intro p hp
    exact mapGet_buildSitemap_ne_none seed _ p hp

/-- Closed instance: the crawled `https://example.com/about` page of the
path-seeded crawl has a sitemap entry under its computed key. -/
theorem sitemap_keyed_by_seed_replaced_witness :
    mapGet (generateReport "https://example.com/blog" defaultCfg
        pathSeedState).sitemap
      (sitemapKey "https://example.com/blog" "https://example.com/about") ≠
      none :=
  (sitemap_keyed_by_seed_replaced pathSeedWorld defaultCfg
      "https://example.com/blog" 20).2
    ("https://example.com/about",
      okResult ⟨"https://example.com/about", 1, some "https://example.com/blog"⟩
        (mkPage 4 []) 2)
    (by decide)

/-! ## C9 — idempotence of URL normalization -/

/-- C9 counterexample: `https://example.com//` is a valid absolute URL
(its href is itself), but normalization strips only one trailing slash,
so a second application strips another:
`normalize(normalize(u)) ≠ normalize(u)`. -/
theorem normalizeUrl_not_idem :
    normalizeUrl "https://example.com//" = some "https://example.com/" ∧
    normalizeUrl "https://example.com/" = some "https://example.com" ∧
    (normalizeUrl "https://example.com//").bind normalizeUrl ≠
      normalizeUrl "https://example.com//" := by decide

/-- C9 (amended): `normalizeUrl` is idempotent on every valid absolute
URL whose normalized form does not end in a slash — equivalently, whose
parsed path does not end in a double slash.  (Each application strips at
most one trailing slash, so a path ending in `//` needs two.) -/
theorem normalizeUrl_idem (s h : String) (h1 : normalizeUrl s = some h)
    (h2 : h.data.getLast? ≠ some '/') : normalizeUrl h = some h := by
  unfold normalizeUrl at h1 ⊢
  obtain ⟨l, hl, hmk⟩ := Option.map_eq_some'.mp h1
  have hdata : h.data = l := by rw [← hmk]
  unfold normalizeUrlL at hl
  obtain ⟨p, hp, hlp⟩ := Option.map_eq_some'.mp hl
  obtain ⟨hh, hs, hc, t, hpt⟩ := parseUrl_wf _ _ hp
  rw [hdata] at h2 ⊢
  subst hlp
  rw [normalizeUrlL_strip_fixed p hh hs hc t hpt h2, Option.map_some', hmk]

/-- Closed instance: `https://example.com` is already normalized, does
not end in a slash, and renormalizes to itself. -/
theorem normalizeUrl_idem_witness :
    normalizeUrl "https://example.com" = some "https://example.com" :=
  normalizeUrl_idem "https://example.com" "https://example.com"
    (by decide) (by decide)

/-! ## C10 — independence of extraction categories -/


/-- C10 counterexample: on the same page content, extraction with a live
response yields meta tags and links — but when the navigation response is
`null` the unguarded `response.headers()` access throws, so the whole
extraction errors and every other category (meta, links, resources,
headings) is lost.  A headers failure thus aborts the other categories. -/
theorem extract_headers_failure_aborts_all :
    ((extractPageData defaultCfg "https://example.com" rawX
        "https://example.com" (some respX) 5 0 none).toOption.map
      (fun d => (d.meta, d.links.internal, d.resources.css.length))) =
      some ([("description", "d")], ["https://example.com/a"], 1) ∧
    (extractPageData defaultCfg "https://example.com" rawX
        "https://example.com" none 5 0 none).toOption = none := by decide

/-- C10 (amended): given a live navigation response, extraction always
succeeds — the meta, link, resource and heading traversals are total and
individually malformed URLs are skipped — and a screenshot failure
changes nothing but the screenshot reference, which degrades to `none`
instead of producing an error. -/
theorem extract_screenshot_failure_degrades (cfg : CrawlConfig)
    (startUrl : String) (p : RawPage) (url : String) (r : RespInfo)
    (lt dep : Nat) (pu : Option String) :
    extractPageData cfg startUrl { p with screenshotFails := true } url
        (some r) lt dep pu =
      (extractPageData cfg startUrl p url (some r) lt dep pu).map
        (fun d => { d with screenshot := none }) ∧
    ∃ d, extractPageData cfg startUrl p url (some r) lt dep pu =
      Except.ok d := by
  constructor
  · unfold extractPageData
    by_cases hs : cfg.screenshotEnabled <;>
      by_cases hf : p.screenshotFails <;> simp [hs, hf, Except.map]
  · exact ⟨_, rfl⟩

end Crawler
